import Mathlib

/-!
Shallow embedding of the incremental RPC-link orchestrator of
`golem-cli/src/app/build/link_rpc.rs`, together with models of its
collaborators (task-result marker store, up-to-date oracle, filesystem,
composition) whose sources are not part of the excerpt and are therefore
modelled from the specification.
-/

namespace GolemLink

/-- Modelled from the spec: the type tag of a declared dependency
(`crate::model::app::DependencyType`, outside the excerpt).  The caller in
`link_rpc.rs` compares the tag against `StaticWasmRpc` and `DynamicWasmRpc`
only; any further variant of the repository's enum is represented here by the
constructor `OtherNonRpc`. -/
inductive DependencyType where
  | StaticWasmRpc : DependencyType
  | DynamicWasmRpc : DependencyType
  | OtherNonRpc : DependencyType
deriving DecidableEq, Repr

/-- Modelled from the spec: a declared WASM-RPC dependency, as consumed by
`link_rpc.rs`: a target component name and a type tag. -/
structure Dep where
  name : String
  dep_type : DependencyType
deriving DecidableEq, Repr

/-- Canonical set representation of a list of names: deduplicated and sorted
lexicographically.  This models collecting the filtered dependencies into a
`BTreeSet` in `link_rpc.rs` (lines 30-41): the iteration order of a `BTreeSet`
is the sorted order of its deduplicated elements. -/
def canonicalSet (xs : List String) : List String :=
  List.insertionSort (fun a b => a ≤ b) xs.dedup

/-- The names of the `StaticWasmRpc`-typed dependencies of a declared
dependency list, in declaration order (`link_rpc.rs` lines 30-35, before the
`BTreeSet` collection). -/
def staticNamesOf (ds : List Dep) : List String :=
  (ds.filter (fun d => d.dep_type == DependencyType.StaticWasmRpc)).map Dep.name

/-- The names of the `DynamicWasmRpc`-typed dependencies of a declared
dependency list, in declaration order (`link_rpc.rs` lines 36-41). -/
def dynamicNamesOf (ds : List Dep) : List String :=
  (ds.filter (fun d => d.dep_type == DependencyType.DynamicWasmRpc)).map Dep.name

/-- Whether a declared dependency has one of the two WASM-RPC types that the
filters of `link_rpc.rs` lines 30-41 select. -/
def isRpcDep (d : Dep) : Bool :=
  d.dep_type == DependencyType.StaticWasmRpc ||
    d.dep_type == DependencyType.DynamicWasmRpc

/-- Modelled from the spec: a task-result marker key, i.e. the pair of the
step identity (step kind plus component name) and the canonical input hash.
The spec idealizes the hash as injective on the canonicalized Static
dependency name set, so the key carries that canonical set itself. -/
structure TaskResultMarker where
  stepId : String
  inputHash : List String
deriving DecidableEq, Repr

/-- Modelled from the spec: the `LinkRpcMarkerHash` input of
`TaskResultMarker::new` in `link_rpc.rs` lines 51-57: component name plus the
`BTreeSet` of static dependencies. -/
def mkLinkRpcMarker (component_name : String) (ds : List Dep) : TaskResultMarker :=
  { stepId := "link-rpc-" ++ component_name,
    inputHash := canonicalSet (staticNamesOf ds) }

/-- Modelled from the spec: the persisted marker store, one record (outcome
`true` = success, `false` = failure) per marker key. -/
abbrev MarkerStore := List (TaskResultMarker × Bool)

/-- Lookup of a marker key in the store. -/
def storeGet : MarkerStore → TaskResultMarker → Option Bool
  | [], _ => none
  | kv :: rest, k => if kv.1 = k then some kv.2 else storeGet rest k

/-- Modelled from the spec: persisting an outcome atomically replaces any
prior record for the key. -/
def storeRecord (s : MarkerStore) (k : TaskResultMarker) (outcome : Bool) : MarkerStore :=
  (k, outcome) :: s.filter (fun kv => !(kv.1 = k : Bool))

/-- Modelled from the spec: `TaskResultMarker::is_up_to_date` — true iff a
stored record exists for exactly this key and its recorded outcome was
success. -/
def TaskResultMarker.is_up_to_date (s : MarkerStore) (m : TaskResultMarker) : Bool :=
  storeGet s m == some true

/-- A file of the modelled filesystem: content bytes and a modification time. -/
structure File where
  content : String
  mtime : Nat
deriving DecidableEq, Repr

/-- Modelled from the spec: the filesystem collaborator, a finite map from
paths to files. -/
abbrev FS := List (String × File)

/-- Existence / content query of the filesystem. -/
def fsGet : FS → String → Option File
  | [], _ => none
  | pf :: rest, p => if pf.1 = p then some pf.2 else fsGet rest p

/-- The largest modification time present on the filesystem (0 when empty). -/
def fsMaxMtime (fsys : FS) : Nat :=
  fsys.foldr (fun pf m => max pf.2.mtime m) 0

/-- Modelled from the spec: an (atomic) write of content to a path.  The
collaborator stamps the written file with a modification time strictly newer
than every existing file's. -/
def fsWrite (fsys : FS) (p : String) (content : String) : FS :=
  (p, { content := content, mtime := fsMaxMtime fsys + 1 }) ::
    fsys.filter (fun pf => !(pf.1 = p : Bool))

/-- Maximum of a list of numbers, `none` on the empty list. -/
def listMaxNat : List Nat → Option Nat
  | [] => none
  | x :: xs =>
    match listMaxNat xs with
    | none => some x
    | some m => some (max x m)

/-- Minimum of a list of numbers, `none` on the empty list. -/
def listMinNat : List Nat → Option Nat
  | [] => none
  | x :: xs =>
    match listMinNat xs with
    | none => some x
    | some m => some (min x m)

/-- The modification times of the paths of the list that exist on the
filesystem. -/
def mtimesOf (fsys : FS) (ps : List String) : List Nat :=
  ps.filterMap (fun p => (fsGet fsys p).map File.mtime)

/-- Whether `max(mtime(inputs))` is strictly newer than `min(mtime(outputs))`;
an empty input list is vacuously not-newer. -/
def inputsNewerThanOutputs (fsys : FS) (inputs outputs : List String) : Bool :=
  match listMaxNat (mtimesOf fsys inputs), listMinNat (mtimesOf fsys outputs) with
  | some mi, some mo => decide (mo < mi)
  | _, _ => false

/-- Modelled from the spec: the up-to-date oracle `is_up_to_date` of
`crate::app::build` (outside the excerpt).  Its first argument is the
combined skip-check flag supplied by the caller (`force || marker stale`);
it returns `true` (up to date, skip) iff the flag is unset, every output path
exists, and the inputs are not strictly newer than the outputs. -/
def is_up_to_date (skip_check : Bool) (inputs outputs : List String) (fsys : FS) : Bool :=
  if skip_check then false
  else if outputs.any (fun p => (fsGet fsys p).isNone) then false
  else if inputsNewerThanOutputs fsys inputs outputs then false
  else true

/-- The application context consumed by `link_rpc` (`ctx`): component
selection, declared dependencies, the pure path functions (the profile
argument of `component_wasm` is fixed per run and folded in) and the global
force flag `ctx.config.skip_up_to_date_checks`. -/
structure Ctx where
  selected_component_names : List String
  component_wasm_rpc_dependencies : String → List Dep
  client_wasm : String → String
  component_wasm : String → String
  component_linked_wasm : String → String
  skip_up_to_date_checks : Bool

/-- Modelled from the spec: the opaque composition collaborator
`commands::composition::compose (primary, stubs, dest)`.  It either produces
the destination content (`some`) or fails (`none`), as a function of the
argument paths. -/
abbrev ComposeFn := String → List String → String → Option String

/-- The observable events of a run, in order: structured forms of the log
lines of `link_rpc.rs`, the copy / compose actions, and marker writes. -/
inductive Event where
  | logLinkingRpc : Event
  | logFoundDynamicDeps (names : List String) (component : String) : Event
  | logFoundStaticDeps (names : List String) (component : String) : Event
  | logSkippingUpToDate (component : String) : Event
  | logCopyingNoStaticDeps (component : String) : Event
  | logLinkingStaticDeps (names : List String) (component : String) : Event
  | copyAction (src dst : String) : Event
  | composeAction (primary : String) (stubs : List String) (dst : String) : Event
  | markerWrite (marker : TaskResultMarker) (outcome : Bool) : Event
deriving DecidableEq, Repr

/-- Whether an event is a pure log event (no filesystem or marker effect). -/
def Event.isLog : Event → Bool
  | .logLinkingRpc => true
  | .logFoundDynamicDeps _ _ => true
  | .logFoundStaticDeps _ _ => true
  | .logSkippingUpToDate _ => true
  | .logCopyingNoStaticDeps _ => true
  | .logLinkingStaticDeps _ _ => true
  | _ => false

/-- Whether an event is a copy or compose action. -/
def Event.isAction : Event → Bool
  | .copyAction _ _ => true
  | .composeAction _ _ _ => true
  | _ => false

/-- The mutable world threaded through the run: filesystem, marker store and
the event trace. -/
structure St where
  fsys : FS
  markers : MarkerStore
  trace : List Event
deriving DecidableEq, Repr

/-- Append one event to the trace. -/
def addEvent (st : St) (e : Event) : St :=
  { st with trace := st.trace ++ [e] }

/-- The canonical static dependency name set of a component
(`static_dependencies` of `link_rpc.rs` lines 30-35, as the `BTreeSet`
iteration order). -/
def staticDepNames (ctx : Ctx) (c : String) : List String :=
  canonicalSet (staticNamesOf (ctx.component_wasm_rpc_dependencies c))

/-- The canonical dynamic dependency name set of a component
(`dynamic_dependencies` of `link_rpc.rs` lines 36-41). -/
def dynamicDepNames (ctx : Ctx) (c : String) : List String :=
  canonicalSet (dynamicNamesOf (ctx.component_wasm_rpc_dependencies c))

/-- The client stub paths of the static dependencies, in `BTreeSet` order
(`client_wasms` of `link_rpc.rs` lines 42-45). -/
def clientWasms (ctx : Ctx) (c : String) : List String :=
  (staticDepNames ctx c).map ctx.client_wasm

/-- The task-result marker of a component (`TaskResultMarker::new` with
`LinkRpcMarkerHash`, `link_rpc.rs` lines 51-57). -/
def markerFor (ctx : Ctx) (c : String) : TaskResultMarker :=
  mkLinkRpcMarker c (ctx.component_wasm_rpc_dependencies c)

/-- The skip verdict of `link_rpc.rs` lines 87-95: the oracle applied to the
combined flag `ctx.config.skip_up_to_date_checks || !marker.is_up_to_date()`,
with inputs = client stubs plus the unlinked binary and the single output =
the linked binary. -/
def skipVerdict (ctx : Ctx) (markers : MarkerStore) (fsys : FS) (c : String) : Bool :=
  is_up_to_date
    (ctx.skip_up_to_date_checks ||
      !(TaskResultMarker.is_up_to_date markers (markerFor ctx c)))
    (clientWasms ctx c ++ [ctx.component_wasm c])
    [ctx.component_linked_wasm c]
    fsys

/-- The copy branch of `link_rpc.rs` lines 105-113: `fs::copy` of the
unlinked binary to the linked path; fails iff the source is missing. -/
def doCopy (st : St) (src dst : String) : St × Bool :=
  match fsGet st.fsys src with
  | none => (addEvent st (Event.copyAction src dst), false)
  | some f =>
    ({ fsys := fsWrite st.fsys dst f.content,
       markers := st.markers,
       trace := st.trace ++ [Event.copyAction src dst] }, true)

/-- The compose branch of `link_rpc.rs` lines 128-136: the opaque composition
of the primary with the stubs into the destination. -/
def doCompose (comp : ComposeFn) (st : St) (primary : String) (stubs : List String)
    (dst : String) : St × Bool :=
  match comp primary stubs dst with
  | none => (addEvent st (Event.composeAction primary stubs dst), false)
  | some content =>
    ({ fsys := fsWrite st.fsys dst content,
       markers := st.markers,
       trace := st.trace ++ [Event.composeAction primary stubs dst] }, true)

/-- Modelled from the spec: `TaskResultMarker::result` (`link_rpc.rs` lines
103-139): persists the outcome keyed by the marker, then returns the original
outcome unchanged. -/
def recordResult (st : St) (k : TaskResultMarker) (outcome : Bool) : St × Bool :=
  ({ fsys := st.fsys,
     markers := storeRecord st.markers k outcome,
     trace := st.trace ++ [Event.markerWrite k outcome] }, outcome)

/-- The informational log of the dynamic dependencies (`link_rpc.rs` lines
59-71): emitted only when the dynamic set is non-empty. -/
def preLoggedDyn (ctx : Ctx) (st : St) (c : String) : St :=
  if !(dynamicDepNames ctx c).isEmpty then
    addEvent st (Event.logFoundDynamicDeps (dynamicDepNames ctx c) c)
  else st

/-- The informational log of the static dependencies (`link_rpc.rs` lines
73-85), after the dynamic one: emitted only when the static set is
non-empty. -/
def preLogged (ctx : Ctx) (st : St) (c : String) : St :=
  if !(staticDepNames ctx c).isEmpty then
    addEvent (preLoggedDyn ctx st c) (Event.logFoundStaticDeps (staticDepNames ctx c) c)
  else preLoggedDyn ctx st c

/-- The action of a non-skipped component (`link_rpc.rs` lines 104-137): a
plain copy when the static set is empty, otherwise the composition of the
static dependencies into the component. -/
def actOn (comp : ComposeFn) (ctx : Ctx) (st : St) (c : String) : St × Bool :=
  if (staticDepNames ctx c).isEmpty then
    doCopy (addEvent st (Event.logCopyingNoStaticDeps c))
      (ctx.component_wasm c) (ctx.component_linked_wasm c)
  else
    doCompose comp (addEvent st (Event.logLinkingStaticDeps (staticDepNames ctx c) c))
      (ctx.component_wasm c) (clientWasms ctx c) (ctx.component_linked_wasm c)

/-- One iteration of the component loop of `link_rpc` (`link_rpc.rs` lines
29-139): classify dependencies, build the marker, log, consult the oracle,
skip or act (copy / compose) and record the outcome.  Returns the updated
world and whether the step succeeded (a skipped step succeeds). -/
def linkComponent (comp : ComposeFn) (ctx : Ctx) (st : St) (c : String) : St × Bool :=
  if skipVerdict ctx (preLogged ctx st c).markers (preLogged ctx st c).fsys c then
    (addEvent (preLogged ctx st c) (Event.logSkippingUpToDate c), true)
  else
    recordResult (actOn comp ctx (preLogged ctx st c) c).1 (markerFor ctx c)
      (actOn comp ctx (preLogged ctx st c) c).2

/-- The fail-fast component loop of `link_rpc`: components in the given
order; the first failing step aborts the rest (the `?` on
`task_result_marker.result`). -/
def linkLoop (comp : ComposeFn) (ctx : Ctx) : List String → St → St × Bool
  | [], st => (st, true)
  | c :: rest, st =>
    if (linkComponent comp ctx st c).2 then
      linkLoop comp ctx rest (linkComponent comp ctx st c).1
    else ((linkComponent comp ctx st c).1, false)

/-- The entry point `link_rpc` (`link_rpc.rs` lines 25-143): log the run
header, then run the loop over the selected components in caller-supplied
order. -/
def link_rpc (comp : ComposeFn) (ctx : Ctx) (st : St) : St × Bool :=
  linkLoop comp ctx ctx.selected_component_names (addEvent st Event.logLinkingRpc)

/-- A small concrete context with one selected component, no declared
dependencies, unlinked binary at `"w"` and linked output at `"l"`. -/
def sampleCtx : Ctx :=
  { selected_component_names := ["a"],
    component_wasm_rpc_dependencies := fun _ => [],
    client_wasm := fun n => n,
    component_wasm := fun _ => "w",
    component_linked_wasm := fun _ => "l",
    skip_up_to_date_checks := false }

/-- A composition collaborator that always fails; contexts without static
dependencies never invoke it. -/
def sampleCompose : ComposeFn := fun _ _ _ => none

/-- An empty starting world. -/
def sampleSt : St := { fsys := [], markers := [], trace := [] }

/-- A starting world with the unlinked binary present. -/
def sampleStSrc : St :=
  { fsys := [("w", { content := "x", mtime := 0 })], markers := [], trace := [] }

/-- A starting world in which the sample component is fully up to date. -/
def sampleStFresh : St :=
  { fsys := [("w", { content := "x", mtime := 0 }), ("l", { content := "x", mtime := 1 })],
    markers := [(mkLinkRpcMarker "a" [], true)],
    trace := [] }

/-- Membership in the canonical set is membership in the original list. -/
theorem mem_canonicalSet {a : String} {xs : List String} :
    a ∈ canonicalSet xs ↔ a ∈ xs := by
  unfold canonicalSet
  rw [List.mem_insertionSort, List.mem_dedup]

/-- Two name lists with the same members have the same canonical set. -/
theorem canonicalSet_ext {xs ys : List String} (h : ∀ a, a ∈ xs ↔ a ∈ ys) :
    canonicalSet xs = canonicalSet ys := by
  have hperm : List.Perm xs.dedup ys.dedup :=
    (List.perm_ext_iff_of_nodup xs.nodup_dedup ys.nodup_dedup).2
      (fun a => by rw [List.mem_dedup, List.mem_dedup]; exact h a)
  exact List.eq_of_perm_of_sorted
    ((List.perm_insertionSort _ _).trans
      (hperm.trans (List.perm_insertionSort _ _).symm))
    (List.sorted_insertionSort _ _) (List.sorted_insertionSort _ _)

/-- The canonical sets are equal exactly when the lists have the same
members. -/
theorem canonicalSet_eq_iff {xs ys : List String} :
    canonicalSet xs = canonicalSet ys ↔ (∀ a, a ∈ xs ↔ a ∈ ys) := by
  constructor
  · intro h a
    rw [← mem_canonicalSet, h, mem_canonicalSet]
  · exact canonicalSet_ext

/-- Recording and then looking up the same key yields the recorded outcome. -/
theorem storeGet_storeRecord_self (s : MarkerStore) (k : TaskResultMarker) (v : Bool) :
    storeGet (storeRecord s k v) k = some v := by
  simp [storeRecord, storeGet]

/-- Looking up a key in a filtered store where the filter keeps that key is
unchanged. -/
theorem storeGet_filter_ne (s : MarkerStore) (k k' : TaskResultMarker) (h : k' ≠ k) :
    storeGet (s.filter (fun kv => !(kv.1 = k : Bool))) k' = storeGet s k' := by
  induction s with
  | nil => rfl
  | cons kv rest ih =>
    by_cases hk : kv.1 = k
    · rw [List.filter_cons, if_neg (by simp [hk])]
      rw [ih, storeGet, if_neg (by rw [hk]; exact fun he => h he.symm)]
    · rw [List.filter_cons, if_pos (by simp [hk])]
      rw [storeGet, storeGet, ih]

/-- Recording one key does not disturb the record of another. -/
theorem storeGet_storeRecord_ne (s : MarkerStore) (k k' : TaskResultMarker) (v : Bool)
    (h : k' ≠ k) : storeGet (storeRecord s k v) k' = storeGet s k' := by
  rw [storeRecord, storeGet, if_neg (fun he => h he.symm), storeGet_filter_ne s k k' h]

/-- Reading back a written path yields the written file, stamped one past the
filesystem's maximal modification time. -/
theorem fsGet_fsWrite_self (fsys : FS) (p content : String) :
    fsGet (fsWrite fsys p content) p =
      some { content := content, mtime := fsMaxMtime fsys + 1 } := by
  simp [fsWrite, fsGet]

/-- Reading a path other than the written one is unchanged by the write. -/
theorem fsGet_fsWrite_ne (fsys : FS) (p q content : String) (h : q ≠ p) :
    fsGet (fsWrite fsys p content) q = fsGet fsys q := by
  rw [fsWrite, fsGet, if_neg (fun he => h he.symm)]
  induction fsys with
  | nil => rfl
  | cons pf rest ih =>
    by_cases hp : pf.1 = p
    · rw [List.filter_cons, if_neg (by simp [hp])]
      rw [ih, fsGet, if_neg (by rw [hp]; exact fun he => h he.symm)]
    · rw [List.filter_cons, if_pos (by simp [hp])]
      rw [fsGet, fsGet, ih]

/-- Every existing file's modification time is bounded by the filesystem
maximum. -/
theorem mtime_le_fsMaxMtime {fsys : FS} {p : String} {f : File}
    (h : fsGet fsys p = some f) : f.mtime ≤ fsMaxMtime fsys := by
  induction fsys with
  | nil => simp [fsGet] at h
  | cons pf rest ih =>
    rw [fsGet] at h
    rw [fsMaxMtime, List.foldr_cons]
    by_cases hp : pf.1 = p
    · rw [if_pos hp] at h
      cases h
      exact le_max_left _ _
    · rw [if_neg hp] at h
      exact le_trans (ih h) (le_max_right _ _)

@[simp]
theorem addEvent_fsys (st : St) (e : Event) : (addEvent st e).fsys = st.fsys := rfl

@[simp]
theorem addEvent_markers (st : St) (e : Event) : (addEvent st e).markers = st.markers := rfl

@[simp]
theorem addEvent_trace (st : St) (e : Event) : (addEvent st e).trace = st.trace ++ [e] := rfl

@[simp]
theorem preLoggedDyn_fsys (ctx : Ctx) (st : St) (c : String) :
    (preLoggedDyn ctx st c).fsys = st.fsys := by
  unfold preLoggedDyn
  split <;> rfl

@[simp]
theorem preLoggedDyn_markers (ctx : Ctx) (st : St) (c : String) :
    (preLoggedDyn ctx st c).markers = st.markers := by
  unfold preLoggedDyn
  split <;> rfl

@[simp]
theorem preLogged_fsys (ctx : Ctx) (st : St) (c : String) :
    (preLogged ctx st c).fsys = st.fsys := by
  unfold preLogged
  split <;> simp

@[simp]
theorem preLogged_markers (ctx : Ctx) (st : St) (c : String) :
    (preLogged ctx st c).markers = st.markers := by
  unfold preLogged
  split <;> simp

/-- The pre-action logs only append log events to the trace. -/
theorem preLogged_trace (ctx : Ctx) (st : St) (c : String) :
    ∃ logs, (preLogged ctx st c).trace = st.trace ++ logs ∧
      ∀ e ∈ logs, e.isLog = true := by
  unfold preLogged preLoggedDyn
  split <;> split
  · exact ⟨[Event.logFoundDynamicDeps (dynamicDepNames ctx c) c,
      Event.logFoundStaticDeps (staticDepNames ctx c) c], by simp [Event.isLog]⟩
  · exact ⟨[Event.logFoundStaticDeps (staticDepNames ctx c) c], by simp [Event.isLog]⟩
  · exact ⟨[Event.logFoundDynamicDeps (dynamicDepNames ctx c) c], by simp [Event.isLog]⟩
  · exact ⟨[], by simp⟩

/-- The up-to-date oracle returns true exactly when the skip-check flag is
unset, every output exists, and the inputs are not strictly newer. -/
theorem is_up_to_date_true_iff (sc : Bool) (ins outs : List String) (fsys : FS) :
    is_up_to_date sc ins outs fsys = true ↔
      sc = false ∧ outs.any (fun p => (fsGet fsys p).isNone) = false ∧
        inputsNewerThanOutputs fsys ins outs = false := by
  unfold is_up_to_date
  split_ifs with h1 h2 h3 <;> simp_all

/-- The skip verdict of a component, characterized: skip exactly when the
force flag is unset, the marker is fresh, the linked output exists, and the
inputs are not strictly newer than it. -/
theorem skipVerdict_true_iff (ctx : Ctx) (m : MarkerStore) (fsys : FS) (c : String) :
    skipVerdict ctx m fsys c = true ↔
      ctx.skip_up_to_date_checks = false ∧
      TaskResultMarker.is_up_to_date m (markerFor ctx c) = true ∧
      (fsGet fsys (ctx.component_linked_wasm c)).isNone = false ∧
      inputsNewerThanOutputs fsys (clientWasms ctx c ++ [ctx.component_wasm c])
        [ctx.component_linked_wasm c] = false := by
  unfold skipVerdict
  rw [is_up_to_date_true_iff]
  simp [Bool.or_eq_false_iff]
  exact and_assoc

/-- The maximum of a list is bounded by any bound of all its elements. -/
theorem listMaxNat_le {ms : List Nat} {b mi : Nat} (hb : ∀ x ∈ ms, x ≤ b)
    (h : listMaxNat ms = some mi) : mi ≤ b := by
  induction ms generalizing mi with
  | nil => simp [listMaxNat] at h
  | cons x xs ih =>
    rw [listMaxNat] at h
    cases hxs : listMaxNat xs with
    | none =>
      rw [hxs] at h
      cases h
      exact hb x (by simp)
    | some m =>
      rw [hxs] at h
      cases h
      exact max_le (hb x (by simp)) (ih (fun y hy => hb y (by simp [hy])) hxs)

/-- Every recorded modification time of a path list is bounded by the
filesystem maximum. -/
theorem mtimesOf_le_fsMaxMtime (fsys : FS) (ps : List String) :
    ∀ x ∈ mtimesOf fsys ps, x ≤ fsMaxMtime fsys := by
  intro x hx
  rw [mtimesOf, List.mem_filterMap] at hx
  obtain ⟨p, _, hp⟩ := hx
  cases hg : fsGet fsys p with
  | none => rw [hg] at hp; simp at hp
  | some f =>
    rw [hg] at hp
    have hfx : f.mtime = x := by simpa using hp
    exact hfx ▸ mtime_le_fsMaxMtime hg

/-- The recorded modification times of a path list are unchanged by a write
to a path outside the list. -/
theorem mtimesOf_fsWrite_notMem (fsys : FS) (ps : List String) (p content : String)
    (h : p ∉ ps) : mtimesOf (fsWrite fsys p content) ps = mtimesOf fsys ps := by
  unfold mtimesOf
  apply List.filterMap_congr
  intro q hq
  rw [fsGet_fsWrite_ne fsys p q content (fun he => h (he ▸ hq))]

/-- After writing a path not among the inputs, the inputs are never strictly
newer than that path. -/
theorem inputsNewer_fsWrite_false (fsys : FS) (ins : List String) (p content : String)
    (h : p ∉ ins) :
    inputsNewerThanOutputs (fsWrite fsys p content) ins [p] = false := by
  unfold inputsNewerThanOutputs
  have houts : mtimesOf (fsWrite fsys p content) [p] = [fsMaxMtime fsys + 1] := by
    unfold mtimesOf
    simp [fsGet_fsWrite_self]
  rw [houts, mtimesOf_fsWrite_notMem fsys ins p content h]
  cases hins : listMaxNat (mtimesOf fsys ins) with
  | none => rfl
  | some mi =>
    have hle : mi ≤ fsMaxMtime fsys := listMaxNat_le (mtimesOf_le_fsMaxMtime fsys ins) hins
    show decide (fsMaxMtime fsys + 1 < mi) = false
    exact decide_eq_false (by omega)

/-- The copy branch with a missing source: no filesystem change, failure. -/
theorem actOn_copy_none (comp : ComposeFn) (ctx : Ctx) (st : St) (c : String)
    (hstat : (staticDepNames ctx c).isEmpty = true)
    (hsrc : fsGet st.fsys (ctx.component_wasm c) = none) :
    actOn comp ctx st c =
      ({ fsys := st.fsys, markers := st.markers,
         trace := st.trace ++ [Event.logCopyingNoStaticDeps c,
           Event.copyAction (ctx.component_wasm c) (ctx.component_linked_wasm c)] },
       false) := by
  simp [actOn, hstat, doCopy, addEvent, hsrc]

/-- The copy branch with an existing source: the source content is written to
the linked path, success. -/
theorem actOn_copy_some (comp : ComposeFn) (ctx : Ctx) (st : St) (c : String) (f : File)
    (hstat : (staticDepNames ctx c).isEmpty = true)
    (hsrc : fsGet st.fsys (ctx.component_wasm c) = some f) :
    actOn comp ctx st c =
      ({ fsys := fsWrite st.fsys (ctx.component_linked_wasm c) f.content,
         markers := st.markers,
         trace := st.trace ++ [Event.logCopyingNoStaticDeps c,
           Event.copyAction (ctx.component_wasm c) (ctx.component_linked_wasm c)] },
       true) := by
  simp [actOn, hstat, doCopy, addEvent, hsrc]

/-- The compose branch when the composition fails: no filesystem change. -/
theorem actOn_compose_none (comp : ComposeFn) (ctx : Ctx) (st : St) (c : String)
    (hstat : (staticDepNames ctx c).isEmpty = false)
    (hcomp : comp (ctx.component_wasm c) (clientWasms ctx c)
      (ctx.component_linked_wasm c) = none) :
    actOn comp ctx st c =
      ({ fsys := st.fsys, markers := st.markers,
         trace := st.trace ++ [Event.logLinkingStaticDeps (staticDepNames ctx c) c,
           Event.composeAction (ctx.component_wasm c) (clientWasms ctx c)
             (ctx.component_linked_wasm c)] },
       false) := by
  simp [actOn, hstat, doCompose, addEvent, hcomp]

/-- The compose branch when the composition succeeds: its produced content is
written to the linked path. -/
theorem actOn_compose_some (comp : ComposeFn) (ctx : Ctx) (st : St) (c : String)
    (content : String)
    (hstat : (staticDepNames ctx c).isEmpty = false)
    (hcomp : comp (ctx.component_wasm c) (clientWasms ctx c)
      (ctx.component_linked_wasm c) = some content) :
    actOn comp ctx st c =
      ({ fsys := fsWrite st.fsys (ctx.component_linked_wasm c) content,
         markers := st.markers,
         trace := st.trace ++ [Event.logLinkingStaticDeps (staticDepNames ctx c) c,
           Event.composeAction (ctx.component_wasm c) (clientWasms ctx c)
             (ctx.component_linked_wasm c)] },
       true) := by
  simp [actOn, hstat, doCompose, addEvent, hcomp]

/-- The anatomy of the action of a non-skipped component: markers untouched,
the trace gains one log and one action event, and the filesystem gains the
written linked output on success and is untouched on failure. -/
theorem actOn_anatomy (comp : ComposeFn) (ctx : Ctx) (st : St) (c : String) :
    (actOn comp ctx st c).1.markers = st.markers ∧
    (∃ lg act, lg.isLog = true ∧ act.isAction = true ∧
      (actOn comp ctx st c).1.trace = st.trace ++ [lg, act]) ∧
    ((actOn comp ctx st c).2 = true →
      ∃ content, (actOn comp ctx st c).1.fsys =
        fsWrite st.fsys (ctx.component_linked_wasm c) content) ∧
    ((actOn comp ctx st c).2 = false → (actOn comp ctx st c).1.fsys = st.fsys) := by
  cases hstat : (staticDepNames ctx c).isEmpty with
  | true =>
    cases hsrc : fsGet st.fsys (ctx.component_wasm c) with
    | none =>
      rw [actOn_copy_none comp ctx st c hstat hsrc]
      exact ⟨rfl, ⟨Event.logCopyingNoStaticDeps c,
        Event.copyAction (ctx.component_wasm c) (ctx.component_linked_wasm c),
        rfl, rfl, rfl⟩, by simp, fun _ => rfl⟩
    | some f =>
      rw [actOn_copy_some comp ctx st c f hstat hsrc]
      exact ⟨rfl, ⟨Event.logCopyingNoStaticDeps c,
        Event.copyAction (ctx.component_wasm c) (ctx.component_linked_wasm c),
        rfl, rfl, rfl⟩, fun _ => ⟨f.content, rfl⟩, by simp⟩
  | false =>
    cases hcomp : comp (ctx.component_wasm c) (clientWasms ctx c)
        (ctx.component_linked_wasm c) with
    | none =>
      rw [actOn_compose_none comp ctx st c hstat hcomp]
      exact ⟨rfl, ⟨Event.logLinkingStaticDeps (staticDepNames ctx c) c,
        Event.composeAction (ctx.component_wasm c) (clientWasms ctx c)
          (ctx.component_linked_wasm c),
        rfl, rfl, rfl⟩, by simp, fun _ => rfl⟩
    | some content =>
      rw [actOn_compose_some comp ctx st c content hstat hcomp]
      exact ⟨rfl, ⟨Event.logLinkingStaticDeps (staticDepNames ctx c) c,
        Event.composeAction (ctx.component_wasm c) (clientWasms ctx c)
          (ctx.component_linked_wasm c),
        rfl, rfl, rfl⟩, fun _ => ⟨content, rfl⟩, by simp⟩

/-- A skipped component changes neither the filesystem nor the marker store,
succeeds, and only appends log events. -/
theorem linkComponent_skipped (comp : ComposeFn) (ctx : Ctx) (st : St) (c : String)
    (h : skipVerdict ctx st.markers st.fsys c = true) :
    (linkComponent comp ctx st c).1.fsys = st.fsys ∧
    (linkComponent comp ctx st c).1.markers = st.markers ∧
    (linkComponent comp ctx st c).2 = true ∧
    ∃ logs, (linkComponent comp ctx st c).1.trace = st.trace ++ logs ∧
      ∀ e ∈ logs, e.isLog = true := by
  unfold linkComponent
  rw [if_pos (by rw [preLogged_markers, preLogged_fsys]; exact h)]
  obtain ⟨logs, hlt, hl⟩ := preLogged_trace ctx st c
  refine ⟨by simp, by simp, rfl, logs ++ [Event.logSkippingUpToDate c], ?_, ?_⟩
  · simp [hlt]
  · intro e he
    rcases List.mem_append.1 he with h1 | h2
    · exact hl e h1
    · rw [List.mem_singleton.1 h2]; rfl

/-- The anatomy of a non-skipped component step: the marker store receives
exactly the step's outcome under the component's marker key, the trace gains
logs, one action event and one final marker write carrying that outcome, and
the filesystem gains the written linked output on success and is untouched on
failure. -/
theorem linkComponent_acted (comp : ComposeFn) (ctx : Ctx) (st : St) (c : String)
    (h : skipVerdict ctx st.markers st.fsys c = false) :
    (linkComponent comp ctx st c).1.markers =
      storeRecord st.markers (markerFor ctx c) (linkComponent comp ctx st c).2 ∧
    (∃ logs act, (∀ e ∈ logs, e.isLog = true) ∧ act.isAction = true ∧
      (linkComponent comp ctx st c).1.trace =
        st.trace ++ logs ++ [act,
          Event.markerWrite (markerFor ctx c) (linkComponent comp ctx st c).2]) ∧
    ((linkComponent comp ctx st c).2 = true →
      ∃ content, (linkComponent comp ctx st c).1.fsys =
        fsWrite st.fsys (ctx.component_linked_wasm c) content) ∧
    ((linkComponent comp ctx st c).2 = false →
      (linkComponent comp ctx st c).1.fsys = st.fsys) := by
  unfold linkComponent
  rw [if_neg (by rw [preLogged_markers, preLogged_fsys, h]; exact Bool.false_ne_true)]
  obtain ⟨logs0, hlt0, hl0⟩ := preLogged_trace ctx st c
  obtain ⟨hm, ⟨lg, act, hlg, hact, htr⟩, hsucc, hfail⟩ :=
    actOn_anatomy comp ctx (preLogged ctx st c) c
  refine ⟨?_, ⟨logs0 ++ [lg], act, ?_, hact, ?_⟩, ?_, ?_⟩
  · show storeRecord (actOn comp ctx (preLogged ctx st c) c).1.markers _ _ = _
    rw [hm, preLogged_markers]
    rfl
  · intro e he
    rcases List.mem_append.1 he with h1 | h2
    · exact hl0 e h1
    · rw [List.mem_singleton.1 h2]; exact hlg
  · show (actOn comp ctx (preLogged ctx st c) c).1.trace ++ _ = _
    rw [htr, hlt0]
    simp
    rfl
  · intro hs
    obtain ⟨content, hc⟩ := hsucc hs
    refine ⟨content, ?_⟩
    show (actOn comp ctx (preLogged ctx st c) c).1.fsys = _
    rw [hc, preLogged_fsys]
  · intro hs
    show (actOn comp ctx (preLogged ctx st c) c).1.fsys = _
    rw [hfail hs, preLogged_fsys]

/-- A log event is not a copy or compose action. -/
theorem Event.isLog_not_isAction {e : Event} (h : e.isLog = true) : e.isAction = false := by
  cases e <;> first | rfl | exact absurd h (by simp [Event.isLog])

/-- The key just recorded with a success outcome reads back fresh. -/
theorem is_up_to_date_storeRecord_self (m : MarkerStore) (k : TaskResultMarker) :
    TaskResultMarker.is_up_to_date (storeRecord m k true) k = true := by
  rw [TaskResultMarker.is_up_to_date, storeGet_storeRecord_self]
  rfl

/-- A fresh key stays fresh when any key is recorded with a success outcome. -/
theorem is_up_to_date_storeRecord_of {m : MarkerStore} {k' : TaskResultMarker}
    (k : TaskResultMarker) (h : TaskResultMarker.is_up_to_date m k' = true) :
    TaskResultMarker.is_up_to_date (storeRecord m k true) k' = true := by
  by_cases hk : k' = k
  · rw [hk]
    exact is_up_to_date_storeRecord_self m k
  · rw [TaskResultMarker.is_up_to_date, storeGet_storeRecord_ne m k k' true hk]
    exact h

/-- After the linked output of a component is freshly written and its marker
is fresh, the component's skip verdict is to skip — provided the force flag
is unset and the output path is not among the component's own inputs. -/
theorem skipVerdict_after_write (ctx : Ctx) (m : MarkerStore) (fsys : FS) (c : String)
    (content : String)
    (hforce : ctx.skip_up_to_date_checks = false)
    (hmark : TaskResultMarker.is_up_to_date m (markerFor ctx c) = true)
    (halias : ctx.component_linked_wasm c ∉ clientWasms ctx c ++ [ctx.component_wasm c]) :
    skipVerdict ctx m (fsWrite fsys (ctx.component_linked_wasm c) content) c = true := by
  rw [skipVerdict_true_iff]
  refine ⟨hforce, hmark, ?_, ?_⟩
  · rw [fsGet_fsWrite_self]
    rfl
  · exact inputsNewer_fsWrite_false fsys _ _ content halias

/-- A skip verdict survives a success-outcome marker record of any key
together with a fresh write to a path outside the component's inputs. -/
theorem skipVerdict_preserved_write (ctx : Ctx) (m : MarkerStore) (fsys : FS) (c : String)
    (p content : String) (k : TaskResultMarker)
    (hp : p ∉ clientWasms ctx c ++ [ctx.component_wasm c])
    (h : skipVerdict ctx m fsys c = true) :
    skipVerdict ctx (storeRecord m k true) (fsWrite fsys p content) c = true := by
  rw [skipVerdict_true_iff] at h ⊢
  obtain ⟨hf, hm, hex, hnew⟩ := h
  refine ⟨hf, is_up_to_date_storeRecord_of k hm, ?_, ?_⟩
  · by_cases hpl : p = ctx.component_linked_wasm c
    · rw [← hpl, fsGet_fsWrite_self]
      rfl
    · rw [fsGet_fsWrite_ne fsys p _ content (fun he => hpl he.symm)]
      exact hex
  · by_cases hpl : p = ctx.component_linked_wasm c
    · rw [← hpl]
      exact inputsNewer_fsWrite_false fsys _ _ content hp
    · unfold inputsNewerThanOutputs at hnew ⊢
      rw [mtimesOf_fsWrite_notMem fsys _ p content hp,
        mtimesOf_fsWrite_notMem fsys [ctx.component_linked_wasm c] p content
          (by simpa using hpl)]
      exact hnew

/-- A component's skip verdict survives a successful step of any component
whose linked output is not among this component's inputs. -/
theorem skipVerdict_preserved_step (comp : ComposeFn) (ctx : Ctx) (st : St) (c d : String)
    (hok : (linkComponent comp ctx st d).2 = true)
    (halias : ctx.component_linked_wasm d ∉ clientWasms ctx c ++ [ctx.component_wasm c])
    (h : skipVerdict ctx st.markers st.fsys c = true) :
    skipVerdict ctx (linkComponent comp ctx st d).1.markers
      (linkComponent comp ctx st d).1.fsys c = true := by
  cases hv : skipVerdict ctx st.markers st.fsys d with
  | true =>
    obtain ⟨hfs, hmk, _, _⟩ := linkComponent_skipped comp ctx st d hv
    rw [hfs, hmk]
    exact h
  | false =>
    obtain ⟨hmk, _, hsucc, _⟩ := linkComponent_acted comp ctx st d hv
    obtain ⟨content, hfs⟩ := hsucc hok
    rw [hfs, hmk, hok]
    exact skipVerdict_preserved_write ctx st.markers st.fsys c _ content _ halias h

/-- After a successful step of a component (force flag unset, its linked
output not among its own inputs), that component's skip verdict is to skip. -/
theorem skipVerdict_established_step (comp : ComposeFn) (ctx : Ctx) (st : St) (c : String)
    (hforce : ctx.skip_up_to_date_checks = false)
    (hok : (linkComponent comp ctx st c).2 = true)
    (halias : ctx.component_linked_wasm c ∉ clientWasms ctx c ++ [ctx.component_wasm c]) :
    skipVerdict ctx (linkComponent comp ctx st c).1.markers
      (linkComponent comp ctx st c).1.fsys c = true := by
  cases hv : skipVerdict ctx st.markers st.fsys c with
  | true =>
    obtain ⟨hfs, hmk, _, _⟩ := linkComponent_skipped comp ctx st c hv
    rw [hfs, hmk]
    exact hv
  | false =>
    obtain ⟨hmk, _, hsucc, _⟩ := linkComponent_acted comp ctx st c hv
    obtain ⟨content, hfs⟩ := hsucc hok
    rw [hfs, hmk, hok]
    exact skipVerdict_after_write ctx _ st.fsys c content hforce
      (is_up_to_date_storeRecord_self st.markers (markerFor ctx c)) halias

/-- A component's skip verdict survives a whole successful loop over
components none of whose linked outputs are among this component's inputs. -/
theorem linkLoop_preserves (comp : ComposeFn) (ctx : Ctx) (l : List String)
    (st st' : St) (c : String)
    (halias : ∀ d ∈ l, ctx.component_linked_wasm d ∉
      clientWasms ctx c ++ [ctx.component_wasm c])
    (hrun : linkLoop comp ctx l st = (st', true))
    (h : skipVerdict ctx st.markers st.fsys c = true) :
    skipVerdict ctx st'.markers st'.fsys c = true := by
  induction l generalizing st with
  | nil =>
    rw [linkLoop] at hrun
    cases hrun
    exact h
  | cons d rest ih =>
    rw [linkLoop] at hrun
    cases hok : (linkComponent comp ctx st d).2 with
    | false =>
      rw [if_neg (by rw [hok]; exact Bool.false_ne_true)] at hrun
      cases hrun
    | true =>
      rw [if_pos hok] at hrun
      exact ih (linkComponent comp ctx st d).1
        (fun e he => halias e (List.mem_cons_of_mem d he)) hrun
        (skipVerdict_preserved_step comp ctx st c d hok
          (halias d (List.mem_cons_self d rest)) h)

/-- After a successful loop with the force flag unset and no linked output
aliasing any input, every processed component's skip verdict is to skip. -/
theorem linkLoop_establishes (comp : ComposeFn) (ctx : Ctx) (l : List String)
    (st st' : St)
    (hforce : ctx.skip_up_to_date_checks = false)
    (halias : ∀ c ∈ l, ∀ d ∈ l, ctx.component_linked_wasm d ∉
      clientWasms ctx c ++ [ctx.component_wasm c])
    (hrun : linkLoop comp ctx l st = (st', true)) :
    ∀ c ∈ l, skipVerdict ctx st'.markers st'.fsys c = true := by
  induction l generalizing st with
  | nil => intro c hc; cases hc
  | cons d rest ih =>
    intro c hc
    rw [linkLoop] at hrun
    cases hok : (linkComponent comp ctx st d).2 with
    | false =>
      rw [if_neg (by rw [hok]; exact Bool.false_ne_true)] at hrun
      cases hrun
    | true =>
      rw [if_pos hok] at hrun
      rcases List.mem_cons.1 hc with hcd | hcr
      · rw [hcd]
        exact linkLoop_preserves comp ctx rest (linkComponent comp ctx st d).1 st' d
          (fun e he => halias d (List.mem_cons_self d rest) e
            (List.mem_cons_of_mem d he)) hrun
          (skipVerdict_established_step comp ctx st d hforce hok
            (halias d (List.mem_cons_self d rest) d (List.mem_cons_self d rest)))
      · exact ih (linkComponent comp ctx st d).1
          (fun a ha b hb => halias a (List.mem_cons_of_mem d ha) b
            (List.mem_cons_of_mem d hb)) hrun c hcr

/-- A loop over components whose skip verdicts all say skip changes neither
the filesystem nor the marker store, succeeds, and appends only log events. -/
theorem linkLoop_all_skip (comp : ComposeFn) (ctx : Ctx) (l : List String) (st : St)
    (h : ∀ c ∈ l, skipVerdict ctx st.markers st.fsys c = true) :
    (linkLoop comp ctx l st).1.fsys = st.fsys ∧
    (linkLoop comp ctx l st).1.markers = st.markers ∧
    (linkLoop comp ctx l st).2 = true ∧
    ∃ logs, (linkLoop comp ctx l st).1.trace = st.trace ++ logs ∧
      ∀ e ∈ logs, e.isLog = true := by
  induction l generalizing st with
  | nil => exact ⟨rfl, rfl, rfl, [], by simp [linkLoop], by simp⟩
  | cons c rest ih =>
    obtain ⟨hfs, hmk, hok, logs1, htr1, hlg1⟩ :=
      linkComponent_skipped comp ctx st c (h c (List.mem_cons_self c rest))
    rw [linkLoop, if_pos hok]
    obtain ⟨hfs2, hmk2, hok2, logs2, htr2, hlg2⟩ :=
      ih (linkComponent comp ctx st c).1
        (fun d hd => by
          rw [hfs, hmk]
          exact h d (List.mem_cons_of_mem c hd))
    refine ⟨by rw [hfs2, hfs], by rw [hmk2, hmk], hok2, logs1 ++ logs2, ?_, ?_⟩
    · rw [htr2, htr1, List.append_assoc]
    · intro e he
      rcases List.mem_append.1 he with h1 | h2
      · exact hlg1 e h1
      · exact hlg2 e h2

/-- The loop over a concatenation runs the first part, and continues with the
second exactly when the first succeeded: components are processed strictly in
the given order and the first failure aborts the rest. -/
theorem linkLoop_append (comp : ComposeFn) (ctx : Ctx) (l1 l2 : List String) (st : St) :
    linkLoop comp ctx (l1 ++ l2) st =
      if (linkLoop comp ctx l1 st).2 then
        linkLoop comp ctx l2 (linkLoop comp ctx l1 st).1
      else linkLoop comp ctx l1 st := by
  induction l1 generalizing st with
  | nil => simp [linkLoop]
  | cons c rest ih =>
    rw [List.cons_append, linkLoop, linkLoop]
    cases hok : (linkComponent comp ctx st c).2 with
    | false => simp
    | true => simp [ih (linkComponent comp ctx st c).1]

/-- The marker key of a component is the step identity plus the canonical
static dependency name set. -/
theorem markerFor_eq (ctx : Ctx) (c : String) :
    markerFor ctx c =
      { stepId := "link-rpc-" ++ c, inputHash := staticDepNames ctx c } := rfl

/-- Dropping the non-RPC dependencies does not change the static name set. -/
theorem staticNamesOf_filter_rpc (ds : List Dep) :
    staticNamesOf (ds.filter isRpcDep) = staticNamesOf ds := by
  unfold staticNamesOf
  rw [List.filter_filter]
  congr 1
  apply List.filter_congr
  intro d _
  rcases d with ⟨n, t⟩
  cases t <;> rfl

/-- Dropping the non-RPC dependencies does not change the dynamic name set. -/
theorem dynamicNamesOf_filter_rpc (ds : List Dep) :
    dynamicNamesOf (ds.filter isRpcDep) = dynamicNamesOf ds := by
  unfold dynamicNamesOf
  rw [List.filter_filter]
  congr 1
  apply List.filter_congr
  intro d _
  rcases d with ⟨n, t⟩
  cases t <;> rfl

/-- The client stub paths agree for contexts agreeing on the static set and
the stub path function. -/
theorem clientWasms_congr (ctx ctx' : Ctx) (c : String)
    (h1 : staticDepNames ctx' c = staticDepNames ctx c)
    (h3 : ctx'.client_wasm = ctx.client_wasm) :
    clientWasms ctx' c = clientWasms ctx c := by
  unfold clientWasms
  rw [h1, h3]

/-- The skip verdict agrees for contexts agreeing on the static set, the path
functions and the force flag. -/
theorem skipVerdict_congr (ctx ctx' : Ctx) (c : String)
    (h1 : staticDepNames ctx' c = staticDepNames ctx c)
    (h3 : ctx'.client_wasm = ctx.client_wasm)
    (h4 : ctx'.component_wasm c = ctx.component_wasm c)
    (h5 : ctx'.component_linked_wasm c = ctx.component_linked_wasm c)
    (h6 : ctx'.skip_up_to_date_checks = ctx.skip_up_to_date_checks) :
    ∀ m fsys, skipVerdict ctx' m fsys c = skipVerdict ctx m fsys c := by
  intro m fsys
  unfold skipVerdict
  rw [markerFor_eq, markerFor_eq, h1, clientWasms_congr ctx ctx' c h1 h3, h4, h5, h6]

/-- The whole component step agrees for contexts agreeing on both classified
dependency sets, the path functions and the force flag. -/
theorem linkComponent_congr (comp : ComposeFn) (ctx ctx' : Ctx) (st : St) (c : String)
    (h1 : staticDepNames ctx' c = staticDepNames ctx c)
    (h2 : dynamicDepNames ctx' c = dynamicDepNames ctx c)
    (h3 : ctx'.client_wasm = ctx.client_wasm)
    (h4 : ctx'.component_wasm c = ctx.component_wasm c)
    (h5 : ctx'.component_linked_wasm c = ctx.component_linked_wasm c)
    (h6 : ctx'.skip_up_to_date_checks = ctx.skip_up_to_date_checks) :
    linkComponent comp ctx' st c = linkComponent comp ctx st c := by
  have hpre : ∀ s, preLogged ctx' s c = preLogged ctx s c := by
    intro s
    unfold preLogged preLoggedDyn
    rw [h1, h2]
  have hact : ∀ s, actOn comp ctx' s c = actOn comp ctx s c := by
    intro s
    unfold actOn
    rw [h1, clientWasms_congr ctx ctx' c h1 h3, h4, h5]
  unfold linkComponent
  rw [hpre, skipVerdict_congr ctx ctx' c h1 h3 h4 h5 h6, hact, markerFor_eq,
    markerFor_eq, h1]

/-- A component with an empty static set never emits a compose event. -/
theorem linkComponent_empty_static_trace (comp : ComposeFn) (ctx : Ctx) (st : St)
    (c : String) (hstat : staticDepNames ctx c = []) :
    ∃ extra, (linkComponent comp ctx st c).1.trace = st.trace ++ extra ∧
      ∀ p s d, Event.composeAction p s d ∉ extra := by
  cases hv : skipVerdict ctx st.markers st.fsys c with
  | true =>
    obtain ⟨_, _, _, logs, htr, hlg⟩ := linkComponent_skipped comp ctx st c hv
    refine ⟨logs, htr, fun p s d hmem => ?_⟩
    have := hlg _ hmem
    simp [Event.isLog] at this
  | false =>
    obtain ⟨logs0, hlt0, hl0⟩ := preLogged_trace ctx st c
    unfold linkComponent
    rw [if_neg (by rw [preLogged_markers, preLogged_fsys, hv]; exact Bool.false_ne_true)]
    cases hsrc : fsGet st.fsys (ctx.component_wasm c) with
    | none =>
      rw [actOn_copy_none comp ctx (preLogged ctx st c) c (by simp [hstat])
        (by rw [preLogged_fsys]; exact hsrc)]
      refine ⟨logs0 ++ [Event.logCopyingNoStaticDeps c,
        Event.copyAction (ctx.component_wasm c) (ctx.component_linked_wasm c),
        Event.markerWrite (markerFor ctx c) false], ?_, ?_⟩
      · show (preLogged ctx st c).trace ++ _ ++ _ = _
        rw [hlt0]
        simp
      · intro p s d hmem
        rcases List.mem_append.1 hmem with h1 | h2
        · have := hl0 _ h1
          simp [Event.isLog] at this
        · simp at h2
    | some f =>
      rw [actOn_copy_some comp ctx (preLogged ctx st c) c f (by simp [hstat])
        (by rw [preLogged_fsys]; exact hsrc)]
      refine ⟨logs0 ++ [Event.logCopyingNoStaticDeps c,
        Event.copyAction (ctx.component_wasm c) (ctx.component_linked_wasm c),
        Event.markerWrite (markerFor ctx c) true], ?_, ?_⟩
      · show (preLogged ctx st c).trace ++ _ ++ _ = _
        rw [hlt0]
        simp
      · intro p s d hmem
        rcases List.mem_append.1 hmem with h1 | h2
        · have := hl0 _ h1
          simp [Event.isLog] at this
        · simp at h2

/-- C1: the task-result marker is computed from the component identity and
the Static dependencies only: for two declared dependency lists that agree on
their Static dependency names, `link` computes the same marker and the same
skip verdict, so changing, adding, removing or reordering only Dynamic
dependencies never invalidates the marker and never triggers a relink. -/
theorem markerHash_and_verdict_independent_of_dynamic_deps (ctx : Ctx)
    (d' : String → List Dep) (c : String)
    (hmem : ∀ a, a ∈ staticNamesOf (d' c) ↔
      a ∈ staticNamesOf (ctx.component_wasm_rpc_dependencies c)) :
    markerFor { ctx with component_wasm_rpc_dependencies := d' } c = markerFor ctx c ∧
    ∀ m fsys, skipVerdict { ctx with component_wasm_rpc_dependencies := d' } m fsys c =
      skipVerdict ctx m fsys c := by
  have h1 : staticDepNames { ctx with component_wasm_rpc_dependencies := d' } c =
      staticDepNames ctx c := canonicalSet_ext hmem
  constructor
  · rw [markerFor_eq, markerFor_eq, h1]
  · exact skipVerdict_congr ctx { ctx with component_wasm_rpc_dependencies := d' } c
      h1 rfl rfl rfl rfl

theorem markerHash_and_verdict_independent_of_dynamic_deps_witness :
    markerFor
      { selected_component_names := ["a"],
        component_wasm_rpc_dependencies := fun _ =>
          [Dep.mk "m" DependencyType.DynamicWasmRpc, Dep.mk "b" DependencyType.StaticWasmRpc],
        client_wasm := fun n => n,
        component_wasm := fun n => n,
        component_linked_wasm := fun n => n,
        skip_up_to_date_checks := false } "a" =
    markerFor
      { selected_component_names := ["a"],
        component_wasm_rpc_dependencies := fun _ =>
          [Dep.mk "b" DependencyType.StaticWasmRpc, Dep.mk "n" DependencyType.DynamicWasmRpc],
        client_wasm := fun n => n,
        component_wasm := fun n => n,
        component_linked_wasm := fun n => n,
        skip_up_to_date_checks := false } "a" :=
  (markerHash_and_verdict_independent_of_dynamic_deps
    { selected_component_names := ["a"],
      component_wasm_rpc_dependencies := fun _ =>
        [Dep.mk "b" DependencyType.StaticWasmRpc, Dep.mk "n" DependencyType.DynamicWasmRpc],
      client_wasm := fun n => n,
      component_wasm := fun n => n,
      component_linked_wasm := fun n => n,
      skip_up_to_date_checks := false }
    (fun _ => [Dep.mk "m" DependencyType.DynamicWasmRpc,
      Dep.mk "b" DependencyType.StaticWasmRpc])
    "a" (fun _ => Iff.rfl)).1

/-- C4: the marker input hash is invariant under permutation and duplication
of the declared Static dependency list, while adding or removing a Static
dependency name always yields a different hash: two markers for the same
component are equal exactly when the Static name sets agree. -/
theorem markerHash_perm_dup_invariant_add_remove_sensitive (c : String)
    (ds1 ds2 : List Dep) :
    mkLinkRpcMarker c ds1 = mkLinkRpcMarker c ds2 ↔
      (∀ a, a ∈ staticNamesOf ds1 ↔ a ∈ staticNamesOf ds2) := by
  unfold mkLinkRpcMarker
  rw [TaskResultMarker.mk.injEq]
  simp only [true_and]
  exact canonicalSet_eq_iff

theorem markerHash_perm_dup_invariant_add_remove_sensitive_witness :
    (mkLinkRpcMarker "a"
        [Dep.mk "b" DependencyType.StaticWasmRpc, Dep.mk "c" DependencyType.StaticWasmRpc] =
      mkLinkRpcMarker "a"
        [Dep.mk "c" DependencyType.StaticWasmRpc, Dep.mk "b" DependencyType.StaticWasmRpc,
          Dep.mk "b" DependencyType.StaticWasmRpc]) ∧
    mkLinkRpcMarker "a" [Dep.mk "b" DependencyType.StaticWasmRpc] ≠
      mkLinkRpcMarker "a"
        [Dep.mk "b" DependencyType.StaticWasmRpc, Dep.mk "c" DependencyType.StaticWasmRpc] := by
  constructor
  · exact (markerHash_perm_dup_invariant_add_remove_sensitive "a" _ _).2
      (fun a => by constructor <;> intro h <;> simp [staticNamesOf] at h ⊢ <;> tauto)
  · intro heq
    have := (markerHash_perm_dup_invariant_add_remove_sensitive "a" _ _).1 heq "c"
    simp [staticNamesOf] at this

/-- C10: declared dependencies whose type is neither `StaticWasmRpc` nor
`DynamicWasmRpc` are ignored by `link`: filtering them away changes neither
classified set, and two dependency maps agreeing on the RPC-typed
dependencies of a component give the very same step (same marker, same
oracle inputs, same filesystem and marker effects, same log events). -/
theorem non_rpc_deps_ignored (comp : ComposeFn) (ctx : Ctx) (d' : String → List Dep)
    (st : St) (c : String)
    (h : (d' c).filter isRpcDep = (ctx.component_wasm_rpc_dependencies c).filter isRpcDep) :
    (∀ ds, staticNamesOf (ds.filter isRpcDep) = staticNamesOf ds ∧
      dynamicNamesOf (ds.filter isRpcDep) = dynamicNamesOf ds) ∧
    linkComponent comp { ctx with component_wasm_rpc_dependencies := d' } st c =
      linkComponent comp ctx st c := by
  refine ⟨fun ds => ⟨staticNamesOf_filter_rpc ds, dynamicNamesOf_filter_rpc ds⟩, ?_⟩
  have hs : staticNamesOf (d' c) = staticNamesOf (ctx.component_wasm_rpc_dependencies c) := by
    rw [← staticNamesOf_filter_rpc (d' c), h, staticNamesOf_filter_rpc]
  have hd : dynamicNamesOf (d' c) =
      dynamicNamesOf (ctx.component_wasm_rpc_dependencies c) := by
    rw [← dynamicNamesOf_filter_rpc (d' c), h, dynamicNamesOf_filter_rpc]
  exact linkComponent_congr comp ctx { ctx with component_wasm_rpc_dependencies := d' } st c
    (by unfold staticDepNames; rw [hs]) (by unfold dynamicDepNames; rw [hd])
    rfl rfl rfl rfl

theorem non_rpc_deps_ignored_witness :
    linkComponent (fun _ _ _ => none)
      { selected_component_names := ["a"],
        component_wasm_rpc_dependencies := fun _ =>
          [Dep.mk "b" DependencyType.StaticWasmRpc, Dep.mk "x" DependencyType.OtherNonRpc],
        client_wasm := fun n => n,
        component_wasm := fun n => n,
        component_linked_wasm := fun n => n,
        skip_up_to_date_checks := false }
      { fsys := [], markers := [], trace := [] } "a" =
    linkComponent (fun _ _ _ => none)
      { selected_component_names := ["a"],
        component_wasm_rpc_dependencies := fun _ =>
          [Dep.mk "b" DependencyType.StaticWasmRpc],
        client_wasm := fun n => n,
        component_wasm := fun n => n,
        component_linked_wasm := fun n => n,
        skip_up_to_date_checks := false }
      { fsys := [], markers := [], trace := [] } "a" :=
  (non_rpc_deps_ignored (fun _ _ _ => none)
    { selected_component_names := ["a"],
      component_wasm_rpc_dependencies := fun _ =>
        [Dep.mk "b" DependencyType.StaticWasmRpc],
      client_wasm := fun n => n,
      component_wasm := fun n => n,
      component_linked_wasm := fun n => n,
      skip_up_to_date_checks := false }
    (fun _ => [Dep.mk "b" DependencyType.StaticWasmRpc,
      Dep.mk "x" DependencyType.OtherNonRpc])
    { fsys := [], markers := [], trace := [] } "a" (by decide)).2

/-- C2: for a component that is not skipped, exactly one marker write occurs
in the step, strictly after the copy / compose action event; it persists the
action's outcome whether success or failure, and `record` returns the
original outcome unchanged so a failure is propagated only after being
persisted. -/
theorem marker_write_once_after_action_passthrough (comp : ComposeFn) (ctx : Ctx)
    (st : St) (c : String)
    (h : skipVerdict ctx st.markers st.fsys c = false) :
    (∀ s k o, (recordResult s k o).2 = o) ∧
    (linkComponent comp ctx st c).1.markers =
      storeRecord st.markers (markerFor ctx c) (linkComponent comp ctx st c).2 ∧
    ∃ logs act, (∀ e ∈ logs, e.isLog = true) ∧ act.isAction = true ∧
      (linkComponent comp ctx st c).1.trace =
        st.trace ++ logs ++ [act,
          Event.markerWrite (markerFor ctx c) (linkComponent comp ctx st c).2] := by
  obtain ⟨hm, htr, _, _⟩ := linkComponent_acted comp ctx st c h
  exact ⟨fun s k o => rfl, hm, htr⟩

theorem marker_write_once_after_action_passthrough_witness :
    (linkComponent sampleCompose sampleCtx sampleStSrc "a").1.markers =
      storeRecord sampleStSrc.markers (markerFor sampleCtx "a")
        (linkComponent sampleCompose sampleCtx sampleStSrc "a").2 :=
  (marker_write_once_after_action_passthrough sampleCompose sampleCtx sampleStSrc "a"
    (by decide)).2.1

/-- C3: a marker is up to date exactly when a stored record exists for that
key with a success outcome; consequently a failed attempt's marker never
reads back as fresh, and the next run with the same inputs acts on that
component again instead of skipping it. -/
theorem marker_fresh_iff_recorded_success_and_failed_retry :
    (∀ s k, TaskResultMarker.is_up_to_date s k = true ↔ storeGet s k = some true) ∧
    ∀ comp ctx st c, skipVerdict ctx st.markers st.fsys c = false →
      (linkComponent comp ctx st c).2 = false →
      skipVerdict ctx (linkComponent comp ctx st c).1.markers
        (linkComponent comp ctx st c).1.fsys c = false := by
  constructor
  · intro s k
    rw [TaskResultMarker.is_up_to_date]
    exact beq_iff_eq
  · intro comp ctx st c hv hfail
    obtain ⟨hm, _, _, _⟩ := linkComponent_acted comp ctx st c hv
    rw [hm, hfail]
    cases hv2 : skipVerdict ctx (storeRecord st.markers (markerFor ctx c) false)
        (linkComponent comp ctx st c).1.fsys c with
    | false => rfl
    | true =>
      obtain ⟨_, hfresh, _, _⟩ := (skipVerdict_true_iff ctx _ _ c).1 hv2
      rw [TaskResultMarker.is_up_to_date, storeGet_storeRecord_self] at hfresh
      simp at hfresh

theorem marker_fresh_iff_recorded_success_and_failed_retry_witness :
    skipVerdict sampleCtx (linkComponent sampleCompose sampleCtx sampleSt "a").1.markers
      (linkComponent sampleCompose sampleCtx sampleSt "a").1.fsys "a" = false :=
  marker_fresh_iff_recorded_success_and_failed_retry.2 sampleCompose sampleCtx sampleSt "a"
    (by decide) (by decide)

/-- C5: the skip verdict's rules, in order: act whenever the force flag is
set, otherwise act whenever the marker is stale, otherwise act whenever the
output is missing, otherwise act whenever the inputs are strictly newer than
the outputs, and skip exactly in the remaining cases; an empty input list is
vacuously not-newer. -/
theorem skip_verdict_rule_order (ctx : Ctx) (m : MarkerStore) (fsys : FS) (c : String) :
    (ctx.skip_up_to_date_checks = true → skipVerdict ctx m fsys c = false) ∧
    (TaskResultMarker.is_up_to_date m (markerFor ctx c) = false →
      skipVerdict ctx m fsys c = false) ∧
    (fsGet fsys (ctx.component_linked_wasm c) = none →
      skipVerdict ctx m fsys c = false) ∧
    (inputsNewerThanOutputs fsys (clientWasms ctx c ++ [ctx.component_wasm c])
      [ctx.component_linked_wasm c] = true → skipVerdict ctx m fsys c = false) ∧
    (skipVerdict ctx m fsys c = true ↔
      (ctx.skip_up_to_date_checks = false ∧
        TaskResultMarker.is_up_to_date m (markerFor ctx c) = true ∧
        (fsGet fsys (ctx.component_linked_wasm c)).isNone = false ∧
        inputsNewerThanOutputs fsys (clientWasms ctx c ++ [ctx.component_wasm c])
          [ctx.component_linked_wasm c] = false)) ∧
    (∀ fsys2 outs, inputsNewerThanOutputs fsys2 [] outs = false) := by
  refine ⟨?_, ?_, ?_, ?_, skipVerdict_true_iff ctx m fsys c, fun fsys2 outs => rfl⟩
  · intro h
    cases hv : skipVerdict ctx m fsys c with
    | false => rfl
    | true =>
      obtain ⟨h1, _, _, _⟩ := (skipVerdict_true_iff ctx m fsys c).1 hv
      exact Bool.noConfusion (h.symm.trans h1)
  · intro h
    cases hv : skipVerdict ctx m fsys c with
    | false => rfl
    | true =>
      obtain ⟨_, h2, _, _⟩ := (skipVerdict_true_iff ctx m fsys c).1 hv
      exact Bool.noConfusion (h.symm.trans h2)
  · intro h
    cases hv : skipVerdict ctx m fsys c with
    | false => rfl
    | true =>
      obtain ⟨_, _, h3, _⟩ := (skipVerdict_true_iff ctx m fsys c).1 hv
      rw [h] at h3
      simp at h3
  · intro h
    cases hv : skipVerdict ctx m fsys c with
    | false => rfl
    | true =>
      obtain ⟨_, _, _, h4⟩ := (skipVerdict_true_iff ctx m fsys c).1 hv
      exact Bool.noConfusion (h.symm.trans h4)

theorem skip_verdict_rule_order_witness :
    skipVerdict sampleCtx [] [] "a" = false :=
  (skip_verdict_rule_order sampleCtx [] [] "a").2.1 (by decide)

/-- C8: a skipped component changes neither the filesystem nor the marker
store, succeeds, appends only log events (no action, no marker write), and
the loop continues with the next component. -/
theorem skipped_component_frame (comp : ComposeFn) (ctx : Ctx) (st : St) (c : String)
    (rest : List String)
    (h : skipVerdict ctx st.markers st.fsys c = true) :
    (linkComponent comp ctx st c).1.fsys = st.fsys ∧
    (linkComponent comp ctx st c).1.markers = st.markers ∧
    (linkComponent comp ctx st c).2 = true ∧
    linkLoop comp ctx (c :: rest) st =
      linkLoop comp ctx rest (linkComponent comp ctx st c).1 ∧
    ∃ logs, (linkComponent comp ctx st c).1.trace = st.trace ++ logs ∧
      (∀ e ∈ logs, e.isLog = true) ∧ ∀ e ∈ logs, e.isAction = false := by
  obtain ⟨hfs, hmk, hok, logs, htr, hlg⟩ := linkComponent_skipped comp ctx st c h
  refine ⟨hfs, hmk, hok, ?_, logs, htr, hlg,
    fun e he => Event.isLog_not_isAction (hlg e he)⟩
  rw [linkLoop, if_pos hok]

theorem skipped_component_frame_witness :
    (linkComponent sampleCompose sampleCtx sampleStFresh "a").1.fsys =
      sampleStFresh.fsys :=
  (skipped_component_frame sampleCompose sampleCtx sampleStFresh "a" [] (by decide)).1

/-- C6: a component with an empty Static set that is not skipped produces its
linked output by a byte-for-byte copy of the unlinked binary, and a component
with an empty Static set never emits a compose event — the composition
operation is invoked only when the Static set is non-empty. -/
theorem empty_static_copies_byte_for_byte_no_compose (comp : ComposeFn) (ctx : Ctx)
    (st : St) (c : String) (f : File)
    (hstat : staticDepNames ctx c = [])
    (hskip : skipVerdict ctx st.markers st.fsys c = false)
    (hsrc : fsGet st.fsys (ctx.component_wasm c) = some f) :
    fsGet (linkComponent comp ctx st c).1.fsys (ctx.component_linked_wasm c) =
      some { content := f.content, mtime := fsMaxMtime st.fsys + 1 } ∧
    (linkComponent comp ctx st c).2 = true ∧
    ∀ comp2 ctx2 st2 c2, staticDepNames ctx2 c2 = [] →
      ∀ p s d, (Event.composeAction p s d ∈ (linkComponent comp2 ctx2 st2 c2).1.trace ↔
        Event.composeAction p s d ∈ st2.trace) := by
  refine ⟨?_, ?_, ?_⟩
  · unfold linkComponent
    rw [if_neg (by rw [preLogged_markers, preLogged_fsys, hskip]; exact Bool.false_ne_true)]
    rw [actOn_copy_some comp ctx (preLogged ctx st c) c f (by simp [hstat])
      (by rw [preLogged_fsys]; exact hsrc)]
    show fsGet (fsWrite (preLogged ctx st c).fsys (ctx.component_linked_wasm c)
      f.content) (ctx.component_linked_wasm c) = _
    rw [preLogged_fsys, fsGet_fsWrite_self]
  · unfold linkComponent
    rw [if_neg (by rw [preLogged_markers, preLogged_fsys, hskip]; exact Bool.false_ne_true)]
    rw [actOn_copy_some comp ctx (preLogged ctx st c) c f (by simp [hstat])
      (by rw [preLogged_fsys]; exact hsrc)]
    rfl
  · intro comp2 ctx2 st2 c2 hstat2 p s d
    obtain ⟨extra, htr, hnot⟩ := linkComponent_empty_static_trace comp2 ctx2 st2 c2 hstat2
    rw [htr, List.mem_append]
    constructor
    · rintro (hin | hin)
      · exact hin
      · exact absurd hin (hnot p s d)
    · exact Or.inl

theorem empty_static_copies_byte_for_byte_no_compose_witness :
    fsGet (linkComponent sampleCompose sampleCtx sampleStSrc "a").1.fsys
        (sampleCtx.component_linked_wasm "a") =
      some { content := "x", mtime := fsMaxMtime sampleStSrc.fsys + 1 } :=
  (empty_static_copies_byte_for_byte_no_compose sampleCompose sampleCtx sampleStSrc "a"
    { content := "x", mtime := 0 } (by decide) (by decide) (by decide)).1

/-- C9: components are processed strictly in the caller-supplied order — the
loop over a concatenation runs the first part and continues with the second
exactly when the first part succeeded — and the loop is fail-fast: a failing
component step makes the loop return that step's state and failure,
independent of every remaining component. -/
theorem loop_in_order_fail_fast :
    (∀ comp ctx l1 l2 st, linkLoop comp ctx (l1 ++ l2) st =
      if (linkLoop comp ctx l1 st).2 then
        linkLoop comp ctx l2 (linkLoop comp ctx l1 st).1
      else linkLoop comp ctx l1 st) ∧
    (∀ comp ctx c rest st st1, linkComponent comp ctx st c = (st1, false) →
      linkLoop comp ctx (c :: rest) st = (st1, false)) ∧
    (∀ comp ctx st, link_rpc comp ctx st =
      linkLoop comp ctx ctx.selected_component_names (addEvent st Event.logLinkingRpc)) := by
  refine ⟨linkLoop_append, ?_, fun comp ctx st => rfl⟩
  intro comp ctx c rest st st1 h
  rw [linkLoop, h]
  simp

theorem loop_in_order_fail_fast_witness :
    linkLoop sampleCompose sampleCtx ["a", "b"] sampleSt =
      ((linkComponent sampleCompose sampleCtx sampleSt "a").1, false) :=
  loop_in_order_fail_fast.2.1 sampleCompose sampleCtx "a" ["b"] sampleSt
    (linkComponent sampleCompose sampleCtx sampleSt "a").1 (by decide)

/-- C7: if a `link` run over the selected components succeeds and nothing
changes in between, a second `link` run skips every component: it performs
zero copy and zero compose actions and leaves the filesystem and the marker
store unchanged.  (Well-formed paths assumed: the force flag is unset and no
linked-output path is among any selected component's input paths.) -/
theorem second_run_skips_all (comp : ComposeFn) (ctx : Ctx) (st0 st1 : St)
    (hforce : ctx.skip_up_to_date_checks = false)
    (halias : ∀ c ∈ ctx.selected_component_names, ∀ d ∈ ctx.selected_component_names,
      ctx.component_linked_wasm d ∉ clientWasms ctx c ++ [ctx.component_wasm c])
    (hrun : link_rpc comp ctx st0 = (st1, true)) :
    (∀ c ∈ ctx.selected_component_names,
      skipVerdict ctx st1.markers st1.fsys c = true) ∧
    (link_rpc comp ctx st1).1.fsys = st1.fsys ∧
    (link_rpc comp ctx st1).1.markers = st1.markers ∧
    (link_rpc comp ctx st1).2 = true ∧
    ∃ logs, (link_rpc comp ctx st1).1.trace = st1.trace ++ logs ∧
      ∀ e ∈ logs, e.isAction = false := by
  have hrun2 : linkLoop comp ctx ctx.selected_component_names
      (addEvent st0 Event.logLinkingRpc) = (st1, true) := hrun
  have hskips : ∀ c ∈ ctx.selected_component_names,
      skipVerdict ctx st1.markers st1.fsys c = true :=
    linkLoop_establishes comp ctx ctx.selected_component_names _ st1 hforce halias hrun2
  obtain ⟨hfs, hmk, hok, logs, htr, hlg⟩ :=
    linkLoop_all_skip comp ctx ctx.selected_component_names
      (addEvent st1 Event.logLinkingRpc)
      (fun c hc => by rw [addEvent_markers, addEvent_fsys]; exact hskips c hc)
  refine ⟨hskips, ?_, ?_, hok, Event.logLinkingRpc :: logs, ?_, ?_⟩
  · show (linkLoop comp ctx ctx.selected_component_names
      (addEvent st1 Event.logLinkingRpc)).1.fsys = _
    rw [hfs, addEvent_fsys]
  · show (linkLoop comp ctx ctx.selected_component_names
      (addEvent st1 Event.logLinkingRpc)).1.markers = _
    rw [hmk, addEvent_markers]
  · show (linkLoop comp ctx ctx.selected_component_names
      (addEvent st1 Event.logLinkingRpc)).1.trace = _
    rw [htr, addEvent_trace]
    simp
  · intro e he
    rcases List.mem_cons.1 he with h1 | h2
    · rw [h1]; rfl
    · exact Event.isLog_not_isAction (hlg e h2)

theorem second_run_skips_all_witness :
    (link_rpc sampleCompose sampleCtx
        (link_rpc sampleCompose sampleCtx sampleStSrc).1).1.fsys =
      (link_rpc sampleCompose sampleCtx sampleStSrc).1.fsys :=
  (second_run_skips_all sampleCompose sampleCtx sampleStSrc
    (link_rpc sampleCompose sampleCtx sampleStSrc).1 rfl (by decide) (by decide)).2.1

end GolemLink
